import Mathlib

/-!
Verification of the `duties-indexer` duty verification engine.

This file contains a shallow embedding in Lean 4 of the engine implemented in
the Go package `internal/application/services` (file `duties_checker.go`),
together with the domain types of `internal/application/domain` and the
abstract beacon-chain port of `internal/application/ports`.

Modelling conventions:
- Go `uint64` values (`Epoch`, `Slot`, `ValidatorIndex`, `CommitteeIndex`)
  are modelled as `Nat`; where the Go code performs `uint64` arithmetic that
  can overflow (the slot-range computation in `checkAttestations` and the
  loop bounds of `preloadSlotAttestations`), an explicit `% U64` is applied.
- `[]byte` bitfields are modelled as `List Nat` (one entry per byte).
- Go maps that are only read with the two-valued `m[k]` form (yielding the
  zero value when the key is absent) are modelled as total functions into
  `Option`, with `Option.getD 0` at the read sites that use the zero value;
  maps read with the `v, ok := m[k]` form are modelled as functions into
  `Option` matched on at the lookup site.
- Each beacon-node call made during one tick of the polling loop is
  modelled by a field of `TickInput`: a collaborator response, either
  `.ok` data or `.error ()` (a transient I/O failure).
- Log lines that the specification classifies as verdict or diagnostic
  events (confirmed / missed / data-inconsistency / transient-error) are
  modelled as values of the inductive type `Event`, emitted in program
  order; purely informational log lines are not modelled.
- Go `for` loops are translated to structural recursion over the list
  being iterated, threading the mutated state explicitly.
-/

namespace DutiesIndexer

/-- Epochs are Go `uint64` (`domain.Epoch`); modelled as `Nat`. -/
abbrev Epoch := Nat

/-- Slots are Go `uint64` (`domain.Slot`); modelled as `Nat`. -/
abbrev Slot := Nat

/-- Validator indices are Go `uint64` (`domain.ValidatorIndex`). -/
abbrev ValidatorIndex := Nat

/-- Committee indices are Go `uint64` (`domain.CommitteeIndex`). -/
abbrev CommitteeIndex := Nat

/-- Modulus of Go's `uint64` arithmetic. -/
def U64 : Nat := 2 ^ 64

/-- Ethereum consensus constant, `const SlotsPerEpoch = domain.Slot(32)`. -/
def SlotsPerEpoch : Nat := 32

/-- Embeds `domain.ProposerDuty`. -/
structure ProposerDuty where
  ValidatorIndex : ValidatorIndex
  Slot : Slot
  deriving DecidableEq, Repr

/-- Embeds `domain.ValidatorDuty` (attester duty); only `ValidatorIndex`
and `Slot` are consulted by the checker. -/
structure ValidatorDuty where
  ValidatorIndex : ValidatorIndex
  Slot : Slot
  CommitteeIndex : CommitteeIndex
  ValidatorCommitteeIdx : Nat
  CommitteeLength : Nat
  CommitteesAtSlot : Nat
  deriving DecidableEq, Repr

/-- Embeds `domain.Attestation`: data slot plus the two byte-packed
bitfields (`List Nat`, one entry per byte). -/
structure Attestation where
  DataSlot : Slot
  CommitteeBits : List Nat
  AggregationBits : List Nat
  deriving DecidableEq, Repr

/-- Committee table of one slot: `map[CommitteeIndex][]ValidatorIndex`,
looked up with the `v, ok :=` form, hence `Option`-valued. -/
abbrev SlotCommittees := CommitteeIndex → Option (List ValidatorIndex)

/-- Embeds `domain.EpochCommittees`: data slot → committee table. -/
abbrev EpochCommittees := Slot → Option SlotCommittees

/-- Verdict and diagnostic events of the engine (the log lines that the
specification's §6 output surface classifies as events). -/
inductive Event where
  | ProposalConfirmed (validator : ValidatorIndex) (slot : Slot)
  | ProposalMissed (validator : ValidatorIndex) (slot : Slot)
  | AttestationConfirmed (validator : ValidatorIndex) (epoch : Epoch) (dutySlot : Slot)
  | AttestationMissed (validator : ValidatorIndex) (epoch : Epoch) (dutySlot : Slot)
  | DataInconsistency (dataSlot : Slot) (includedSlot : Slot) (committee : Option CommitteeIndex)
  | TransientError (slot : Option Slot)
  deriving DecidableEq, Repr

/-- Responses of the beacon-chain collaborator consumed during one tick;
one field per `ports.BeaconChainAdapter` method used by the checker.
`.error ()` models a failed (transient I/O error) call. -/
structure TickInput where
  GetFinalizedEpoch : Except Unit Epoch
  GetProposerDuties : Epoch → List ValidatorIndex → Except Unit (List ProposerDuty)
  DidProposeBlock : Slot → Except Unit Bool
  GetValidatorDutiesBatch : Epoch → List ValidatorIndex → Except Unit (List ValidatorDuty)
  GetEpochCommittees : Epoch → Except Unit EpochCommittees
  GetBlockAttestations : Slot → Except Unit (List Attestation)

/-- Embeds the persistent fields of `services.DutiesChecker`:
the tracked validator set, the last observed finalized epoch, and the
`checkedEpochs` map (`none` = key absent from the Go map). -/
structure DutiesChecker where
  ValidatorIndices : List ValidatorIndex
  lastFinalizedEpoch : Epoch
  checkedEpochs : ValidatorIndex → Option Epoch

/-- Embeds `NewDutiesChecker`: empty tracking map, last finalized epoch 0. -/
def NewDutiesChecker (validatorIndices : List ValidatorIndex) : DutiesChecker :=
  { ValidatorIndices := validatorIndices
    lastFinalizedEpoch := 0
    checkedEpochs := fun _ => none }

/-- Embeds `isBitSet`: bit `index % 8` of byte `index / 8`, `false` when the
byte index falls beyond the bitfield. -/
def isBitSet (bits : List Nat) (index : Nat) : Bool :=
  let byteIndex := index / 8
  let bitIndex := index % 8
  if bits.length ≤ byteIndex then false
  else ((bits.getD byteIndex 0) &&& (1 <<< bitIndex)) != 0

/-- Embeds `getTrueBitIndices`: indices of set bits, scanned in increasing
order over `len(bits)*8` positions. -/
def getTrueBitIndices (bits : List Nat) : List Nat :=
  (List.range (bits.length * 8)).filter (fun i => isBitSet bits i)

/-- Embeds `wasCheckedThisEpoch`: Go's `a.checkedEpochs[index] == epoch`
reads the map with zero-value default, hence `Option.getD 0`. -/
def wasCheckedThisEpoch (checkedEpochs : ValidatorIndex → Option Epoch)
    (index : ValidatorIndex) (epoch : Epoch) : Bool :=
  ((checkedEpochs index).getD 0) == epoch

/-- Embeds `markCheckedThisEpoch`: map insertion `checkedEpochs[index] = epoch`. -/
def markCheckedThisEpoch (checkedEpochs : ValidatorIndex → Option Epoch)
    (index : ValidatorIndex) (epoch : Epoch) : ValidatorIndex → Option Epoch :=
  fun i => if i = index then some epoch else checkedEpochs i

/-- Embeds `getValidatorsToCheck`: keep the validators not already checked
for this epoch (the spec's `DutyTracker.filterUnchecked`). -/
def getValidatorsToCheck (checkedEpochs : ValidatorIndex → Option Epoch)
    (indices : List ValidatorIndex) (epoch : Epoch) : List ValidatorIndex :=
  indices.filter (fun index => ! wasCheckedThisEpoch checkedEpochs index epoch)

/-- Embeds the innermost loop of `checkAttestations`
(`for localPos, valIndex := range validators`): `globalBit` is
`bitBase + localPos`; a validator is recorded as attested when its
aggregation bit is set and it belongs to the tracked set. -/
def markAttested (tracked : ValidatorIndex → Bool) (aggBits : List Nat) :
    Nat → List ValidatorIndex → (ValidatorIndex → Bool) → (ValidatorIndex → Bool)
  | _, [], attested => attested
  | globalBit, valIndex :: rest, attested =>
    markAttested tracked aggBits (globalBit + 1) rest
      (if isBitSet aggBits globalBit && tracked valIndex then
        fun v => if v = valIndex then true else attested v
      else attested)

/-- Embeds the committee loop of `checkAttestations`
(`for _, commIdxInt := range aggregatedCommittees`): a committee that is
missing from the slot's table or empty is skipped with a warning
(`Event.DataInconsistency`) and the running `bitBase` is left unchanged;
otherwise its validators are marked and `bitBase` advances by the
committee's validator-list length. -/
def processCommittees (tracked : ValidatorIndex → Bool) (slotCommittees : SlotCommittees)
    (aggBits : List Nat) (dataSlot includedSlot : Slot) :
    List Nat → Nat → (ValidatorIndex → Bool) → (ValidatorIndex → Bool) × List Event
  | [], _, attested => (attested, [])
  | commIdx :: rest, bitBase, attested =>
    match slotCommittees commIdx with
    | none =>
      let r := processCommittees tracked slotCommittees aggBits dataSlot includedSlot
        rest bitBase attested
      (r.1, Event.DataInconsistency dataSlot includedSlot (some commIdx) :: r.2)
    | some validators =>
      if validators.isEmpty then
        let r := processCommittees tracked slotCommittees aggBits dataSlot includedSlot
          rest bitBase attested
        (r.1, Event.DataInconsistency dataSlot includedSlot (some commIdx) :: r.2)
      else
        processCommittees tracked slotCommittees aggBits dataSlot includedSlot
          rest (bitBase + validators.length)
          (markAttested tracked aggBits bitBase validators attested)

/-- Embeds the per-attestation body of `checkAttestations`: skip the
attestation when its data slot is outside `[startSlot, endSlot]`; warn and
skip when the data slot has no committee table; skip silently when no
committee bit is set; otherwise walk the aggregated committees decoded
from `CommitteeBits` with `bitBase` starting at 0. -/
def processAttestation (tracked : ValidatorIndex → Bool) (epochCommittees : EpochCommittees)
    (startSlot endSlot includedSlot : Slot) (att : Attestation)
    (attested : ValidatorIndex → Bool) : (ValidatorIndex → Bool) × List Event :=
  if att.DataSlot < startSlot || endSlot < att.DataSlot then (attested, [])
  else
    match epochCommittees att.DataSlot with
    | none => (attested, [Event.DataInconsistency att.DataSlot includedSlot none])
    | some slotCommittees =>
      let aggregatedCommittees := getTrueBitIndices att.CommitteeBits
      if aggregatedCommittees.isEmpty then (attested, [])
      else
        processCommittees tracked slotCommittees att.AggregationBits att.DataSlot
          includedSlot aggregatedCommittees 0 attested

/-- Embeds the inner loop `for _, att := range atts` of the scan in
`checkAttestations`. -/
def scanAtts (tracked : ValidatorIndex → Bool) (epochCommittees : EpochCommittees)
    (startSlot endSlot includedSlot : Slot) :
    List Attestation → (ValidatorIndex → Bool) × List Event →
      (ValidatorIndex → Bool) × List Event
  | [], acc => acc
  | att :: rest, acc =>
    let r := processAttestation tracked epochCommittees startSlot endSlot includedSlot
      att acc.1
    scanAtts tracked epochCommittees startSlot endSlot includedSlot rest (r.1, acc.2 ++ r.2)

/-- Embeds the outer loop `for includedSlot, atts := range slotAttestations`
of the scan in `checkAttestations`; the Go map iteration order is
arbitrary, so the entry order of the list argument is one admissible
iteration order. -/
def scanSlots (tracked : ValidatorIndex → Bool) (epochCommittees : EpochCommittees)
    (startSlot endSlot : Slot) :
    List (Slot × List Attestation) → (ValidatorIndex → Bool) × List Event →
      (ValidatorIndex → Bool) × List Event
  | [], acc => acc
  | p :: rest, acc =>
    scanSlots tracked epochCommittees startSlot endSlot rest
      (scanAtts tracked epochCommittees startSlot endSlot p.1 p.2 acc)

/-- Runs the full attestation scan of `checkAttestations` from the empty
`attested` map. -/
def scanSlotAttestations (tracked : ValidatorIndex → Bool)
    (epochCommittees : EpochCommittees) (startSlot endSlot : Slot)
    (slotAttestations : List (Slot × List Attestation)) :
    (ValidatorIndex → Bool) × List Event :=
  scanSlots tracked epochCommittees startSlot endSlot slotAttestations (fun _ => false, [])

/-- Embeds `preloadSlotAttestations`: fetch attestations for every block
slot in `[minSlot+1, maxSlot+32]` (computed in `uint64` arithmetic); a
failed fetch is skipped (that slot simply contributes no entry). -/
def preloadSlotAttestations (getBlockAttestations : Slot → Except Unit (List Attestation))
    (minSlot maxSlot : Slot) : List (Slot × List Attestation) :=
  let lo := (minSlot + 1) % U64
  let hi := (maxSlot + 32) % U64
  (List.range' lo (hi + 1 - lo)).filterMap (fun slot =>
    match getBlockAttestations slot with
    | .ok atts => some (slot, atts)
    | .error _ => none)

/-- Embeds the verdict loop of `checkAttestations`
(`for _, duty := range duties`): emit confirmed or missed per duty and mark
the duty's validator checked for the epoch in both cases. -/
def resolveDuties (attested : ValidatorIndex → Bool) (finalizedEpoch : Epoch) :
    List ValidatorDuty → (ValidatorIndex → Option Epoch) →
      (ValidatorIndex → Option Epoch) × List Event
  | [], checkedEpochs => (checkedEpochs, [])
  | duty :: rest, checkedEpochs =>
    let ev := if attested duty.ValidatorIndex then
        Event.AttestationConfirmed duty.ValidatorIndex finalizedEpoch duty.Slot
      else
        Event.AttestationMissed duty.ValidatorIndex finalizedEpoch duty.Slot
    let r := resolveDuties attested finalizedEpoch rest
      (markCheckedThisEpoch checkedEpochs duty.ValidatorIndex finalizedEpoch)
    (r.1, ev :: r.2)

/-- Embeds `checkAttestations`, threading the `checkedEpochs` map. Early
returns on a failed duties fetch, empty duty list, or failed committees
fetch leave the map unchanged. -/
def checkAttestations (checkedEpochs : ValidatorIndex → Option Epoch) (inp : TickInput)
    (finalizedEpoch : Epoch) (validatorIndices : List ValidatorIndex) :
    (ValidatorIndex → Option Epoch) × List Event :=
  match inp.GetValidatorDutiesBatch finalizedEpoch validatorIndices with
  | .error _ => (checkedEpochs, [Event.TransientError none])
  | .ok duties =>
    if duties.isEmpty then (checkedEpochs, [])
    else
      let tracked := fun v => validatorIndices.contains v
      let startSlot := (finalizedEpoch * SlotsPerEpoch) % U64
      let endSlot := (startSlot + SlotsPerEpoch - 1) % U64
      match inp.GetEpochCommittees finalizedEpoch with
      | .error _ => (checkedEpochs, [Event.TransientError none])
      | .ok epochCommittees =>
        let slotAttestations :=
          preloadSlotAttestations inp.GetBlockAttestations startSlot endSlot
        let scanned :=
          scanSlotAttestations tracked epochCommittees startSlot endSlot slotAttestations
        let resolved := resolveDuties scanned.1 finalizedEpoch duties checkedEpochs
        (resolved.1, scanned.2 ++ resolved.2)

/-- Embeds the duty loop of `checkProposals`
(`for _, duty := range proposerDuties`): block exists → confirmed; block
absent → missed; query fails → transient-error warning, duty skipped. -/
def proposalLoop (inp : TickInput) : List ProposerDuty → List Event
  | [] => []
  | duty :: rest =>
    match inp.DidProposeBlock duty.Slot with
    | .error _ => Event.TransientError (some duty.Slot) :: proposalLoop inp rest
    | .ok true => Event.ProposalConfirmed duty.ValidatorIndex duty.Slot :: proposalLoop inp rest
    | .ok false => Event.ProposalMissed duty.ValidatorIndex duty.Slot :: proposalLoop inp rest

/-- Embeds `checkProposals`: fetch proposer duties (failure aborts the
step with a transient-error event, an empty list aborts silently) and run
the per-duty loop. The tracking map is never touched. -/
def checkProposals (inp : TickInput) (finalizedEpoch : Epoch)
    (indices : List ValidatorIndex) : List Event :=
  match inp.GetProposerDuties finalizedEpoch indices with
  | .error _ => [Event.TransientError none]
  | .ok proposerDuties =>
    if proposerDuties.isEmpty then []
    else proposalLoop inp proposerDuties

/-- Embeds `checkLatestFinalizedEpoch`, one tick of the polling loop:
fetch the finalized epoch (failure leaves the state unchanged); skip when
it equals the last observed value; otherwise update the last observed
epoch, filter the tracked validators, and run the proposal then the
attestation check. -/
def checkLatestFinalizedEpoch (s : DutiesChecker) (inp : TickInput) :
    DutiesChecker × List Event :=
  match inp.GetFinalizedEpoch with
  | .error _ => (s, [Event.TransientError none])
  | .ok finalizedEpoch =>
    if finalizedEpoch = s.lastFinalizedEpoch then (s, [])
    else
      let s1 := { s with lastFinalizedEpoch := finalizedEpoch }
      if s1.ValidatorIndices.isEmpty then (s1, [])
      else
        let validatorIndices :=
          getValidatorsToCheck s1.checkedEpochs s1.ValidatorIndices finalizedEpoch
        if validatorIndices.isEmpty then (s1, [])
        else
          let proposalEvents := checkProposals inp finalizedEpoch validatorIndices
          let r := checkAttestations s1.checkedEpochs inp finalizedEpoch validatorIndices
          ({ s1 with checkedEpochs := r.1 }, proposalEvents ++ r.2)

/-- Runs a sequence of ticks of `DutiesChecker.Run` from a given state,
keeping the final state. -/
def runTicks (s : DutiesChecker) : List TickInput → DutiesChecker
  | [] => s
  | inp :: rest => runTicks (checkLatestFinalizedEpoch s inp).1 rest

/-! ### Characterizations of the attestation scan -/

/-- Contribution of one committee's validator list to the attested bit of
validator `v`: some list position hits a set aggregation bit while `v` is
tracked. Mirrors the recursion of `markAttested`. -/
def hitIn (tracked : ValidatorIndex → Bool) (aggBits : List Nat) (v : ValidatorIndex) :
    Nat → List ValidatorIndex → Bool
  | _, [] => false
  | globalBit, w :: rest =>
    ((w == v) && isBitSet aggBits globalBit && tracked v)
      || hitIn tracked aggBits v (globalBit + 1) rest

/-- Contribution of a committee walk to the attested bit of validator `v`,
advancing the offset by each committee's validator-list length (0 for a
missing committee). -/
def attHit (tracked : ValidatorIndex → Bool) (slotCommittees : SlotCommittees)
    (aggBits : List Nat) (v : ValidatorIndex) : List Nat → Nat → Bool
  | [], _ => false
  | commIdx :: rest, bitBase =>
    hitIn tracked aggBits v bitBase ((slotCommittees commIdx).getD [])
      || attHit tracked slotCommittees aggBits v rest
          (bitBase + ((slotCommittees commIdx).getD []).length)

/-- Diagnostic events of one committee walk: one `DataInconsistency` per
missing or empty committee, in walk order. -/
def commEvents (slotCommittees : SlotCommittees) (ds inc : Slot) : List Nat → List Event
  | [] => []
  | c :: rest =>
    match slotCommittees c with
    | none => Event.DataInconsistency ds inc (some c) :: commEvents slotCommittees ds inc rest
    | some vs =>
      if vs.isEmpty then
        Event.DataInconsistency ds inc (some c) :: commEvents slotCommittees ds inc rest
      else commEvents slotCommittees ds inc rest

/-- Attested bit contributed by a single attestation, starting from the
empty attested map. -/
def attestedBy (tracked : ValidatorIndex → Bool) (epochCommittees : EpochCommittees)
    (startSlot endSlot : Slot) (att : Attestation) (v : ValidatorIndex) : Bool :=
  (processAttestation tracked epochCommittees startSlot endSlot 0 att (fun _ => false)).1 v

/-- Diagnostic events contributed by a single attestation. -/
def attEvents (tracked : ValidatorIndex → Bool) (epochCommittees : EpochCommittees)
    (startSlot endSlot inc : Slot) (att : Attestation) : List Event :=
  (processAttestation tracked epochCommittees startSlot endSlot inc att (fun _ => false)).2

/-- Bit offset at which committee number `k` of the walk `comms` starts:
the summed validator-list lengths of the preceding walked committees (0
for a missing committee, matching the unchanged offset of a skipped one). -/
def committeeOffset (slotCommittees : SlotCommittees) (comms : List Nat) (k : Nat) : Nat :=
  ((comms.take k).map (fun c => ((slotCommittees c).getD []).length)).sum

/-- Successfully reported finalized epochs of a tick sequence, in order. -/
def okEpochs (inputs : List TickInput) : List Epoch :=
  inputs.filterMap (fun inp =>
    match inp.GetFinalizedEpoch with
    | .ok e => some e
    | .error _ => none)

/-! ### Test fixtures used by witnesses and counterexamples -/

/-- Committee table fixture: committee 0 has validators `[10, 11, 12]`,
committee 1 has `[20, 21, 22, 23, 24]` (the spec's sizes-`[3,5]` example). -/
def scExample : SlotCommittees := fun c =>
  if c = 0 then some [10, 11, 12]
  else if c = 1 then some [20, 21, 22, 23, 24] else none

/-- Epoch committee fixture: only data slot 5 has a committee table. -/
def ecExample : EpochCommittees := fun s => if s = 5 then some scExample else none

/-- Attestation fixture: data slot 5, committees 0 and 1 aggregated
(`CommitteeBits = 0b11`), aggregation bits 0 and 4 set (`0b10001`). -/
def attExample : Attestation :=
  { DataSlot := 5, CommitteeBits := [3], AggregationBits := [17] }

/-- Attestation fixture: data slot 5, committee 1 aggregated only
(`CommitteeBits = 0b10`), aggregation bit 1 set. -/
def attExample2 : Attestation :=
  { DataSlot := 5, CommitteeBits := [2], AggregationBits := [2] }

/-- Epoch committee fixture for the inclusion-window analysis: data slot
`e * 32` (the first slot of epoch `e`) holds the single one-validator
committee `[7]`; every other slot has no committee data. -/
def windowEC (e : Epoch) : EpochCommittees := fun slot =>
  if slot = e * 32 then some (fun c => if c = 0 then some [7] else none) else none

/-- Attestation fixture for the inclusion-window analysis: data slot
`e * 32`, committee 0 aggregated, aggregation bit 0 set. -/
def windowAtt (e : Epoch) : Attestation :=
  { DataSlot := e * 32, CommitteeBits := [1], AggregationBits := [1] }

/-- Collaborator fixture for the inclusion-window analysis: epoch `e`,
one tracked validator 7 whose duty is the epoch's first slot `e * 32`, a
single one-validator committee at that slot, and a single attestation for
it included in the block at slot `s`. -/
def windowProbeInput (e : Epoch) (s : Slot) : TickInput :=
  { GetFinalizedEpoch := .ok e
    GetProposerDuties := fun _ _ => .ok []
    DidProposeBlock := fun _ => .ok false
    GetValidatorDutiesBatch := fun _ _ =>
      .ok [{ ValidatorIndex := 7, Slot := e * 32, CommitteeIndex := 0,
             ValidatorCommitteeIdx := 0, CommitteeLength := 1, CommitteesAtSlot := 1 }]
    GetEpochCommittees := fun _ => .ok (windowEC e)
    GetBlockAttestations := fun slot =>
      .ok (if slot = s then [windowAtt e] else []) }

/-- Collaborator fixture reporting finalized epoch `e`, with one attester
duty for validator 1 and no other data; the attestation check then marks
validator 1 checked for `e` with a missed verdict. -/
def epochOnlyTick (e : Epoch) : TickInput :=
  { GetFinalizedEpoch := .ok e
    GetProposerDuties := fun _ _ => .ok []
    DidProposeBlock := fun _ => .ok false
    GetValidatorDutiesBatch := fun _ _ =>
      .ok [{ ValidatorIndex := 1, Slot := 0, CommitteeIndex := 0,
             ValidatorCommitteeIdx := 0, CommitteeLength := 1, CommitteesAtSlot := 1 }]
    GetEpochCommittees := fun _ => .ok (fun _ => none)
    GetBlockAttestations := fun _ => .ok [] }

/-- Collaborator fixture whose finalized-epoch fetch fails. -/
def errorTick : TickInput :=
  { GetFinalizedEpoch := .error ()
    GetProposerDuties := fun _ _ => .ok []
    DidProposeBlock := fun _ => .ok false
    GetValidatorDutiesBatch := fun _ _ => .ok []
    GetEpochCommittees := fun _ => .ok (fun _ => none)
    GetBlockAttestations := fun _ => .ok [] }

/-- Collaborator fixture for the proposer-duty witness: three proposer
duties at slots 3205, 3206 and 3207; the block-existence query answers
true at 3205, false at 3206 and fails at 3207; the attester-duty fetch
fails. -/
def proposerProbeInput : TickInput :=
  { GetFinalizedEpoch := .ok 100
    GetProposerDuties := fun _ _ =>
      .ok [{ ValidatorIndex := 30, Slot := 3205 }, { ValidatorIndex := 31, Slot := 3206 },
           { ValidatorIndex := 32, Slot := 3207 }]
    DidProposeBlock := fun slot =>
      if slot = 3205 then .ok true else if slot = 3206 then .ok false else .error ()
    GetValidatorDutiesBatch := fun _ _ => .error ()
    GetEpochCommittees := fun _ => .ok (fun _ => none)
    GetBlockAttestations := fun _ => .ok [] }

/-! ### Characterization lemmas -/

theorem markAttested_eq (tracked : ValidatorIndex → Bool) (aggBits : List Nat)
    (v : ValidatorIndex) :
    ∀ (vs : List ValidatorIndex) (g : Nat) (acc : ValidatorIndex → Bool),
      markAttested tracked aggBits g vs acc v
        = (acc v || hitIn tracked aggBits v g vs)
  | [], g, acc => by simp [markAttested, hitIn]
  | w :: rest, g, acc => by
    simp only [markAttested, hitIn]
    rw [markAttested_eq tracked aggBits v rest (g + 1)]
    by_cases hvw : w = v
    · subst hvw
      cases hbit : isBitSet aggBits g <;> cases htr : tracked w <;>
        simp_all [Bool.or_assoc, Bool.or_left_comm]
    · have h2 : ∀ b : Bool, (if v = w then true else b) = b := by
        intro b
        rw [if_neg (fun h => hvw h.symm)]
      cases hbit : isBitSet aggBits g <;> cases htr : tracked w <;>
        simp_all [Bool.or_assoc, beq_eq_decide, hvw]

theorem processCommittees_fst (tracked : ValidatorIndex → Bool)
    (sc : SlotCommittees) (aggBits : List Nat) (ds inc : Slot) (v : ValidatorIndex) :
    ∀ (comms : List Nat) (bitBase : Nat) (attested : ValidatorIndex → Bool),
      (processCommittees tracked sc aggBits ds inc comms bitBase attested).1 v
        = (attested v || attHit tracked sc aggBits v comms bitBase)
  | [], g, acc => by simp [processCommittees, attHit]
  | c :: rest, g, acc => by
    simp only [processCommittees, attHit]
    cases hsc : sc c with
    | none =>
      rw [processCommittees_fst tracked sc aggBits ds inc v rest g acc]
      simp [hitIn]
    | some vs =>
      by_cases hemp : vs.isEmpty
      · have hnil : vs = [] := by simpa using hemp
        subst hnil
        simp only [if_pos hemp]
        rw [processCommittees_fst tracked sc aggBits ds inc v rest g acc]
        simp [hitIn]
      · simp only [if_neg hemp]
        rw [processCommittees_fst tracked sc aggBits ds inc v rest (g + vs.length)
          (markAttested tracked aggBits g vs acc)]
        rw [markAttested_eq tracked aggBits v vs g acc]
        simp [Bool.or_assoc]

theorem processCommittees_snd (tracked : ValidatorIndex → Bool)
    (sc : SlotCommittees) (aggBits : List Nat) (ds inc : Slot) :
    ∀ (comms : List Nat) (bitBase : Nat) (attested : ValidatorIndex → Bool),
      (processCommittees tracked sc aggBits ds inc comms bitBase attested).2
        = commEvents sc ds inc comms
  | [], g, acc => by simp [processCommittees, commEvents]
  | c :: rest, g, acc => by
    simp only [processCommittees, commEvents]
    cases hsc : sc c with
    | none => rw [processCommittees_snd tracked sc aggBits ds inc rest g acc]
    | some vs =>
      by_cases hemp : vs.isEmpty
      · simp only [if_pos hemp]
        rw [processCommittees_snd tracked sc aggBits ds inc rest g acc]
      · simp only [if_neg hemp]
        rw [processCommittees_snd tracked sc aggBits ds inc rest (g + vs.length)
          (markAttested tracked aggBits g vs acc)]

theorem processAttestation_fst (tracked : ValidatorIndex → Bool)
    (ec : EpochCommittees) (startSlot endSlot inc : Slot) (att : Attestation)
    (acc : ValidatorIndex → Bool) (v : ValidatorIndex) :
    (processAttestation tracked ec startSlot endSlot inc att acc).1 v
      = (acc v || attestedBy tracked ec startSlot endSlot att v) := by
  unfold attestedBy processAttestation
  cases h1 : (att.DataSlot < startSlot || endSlot < att.DataSlot : Bool) with
  | true => simp [h1]
  | false =>
    simp only [h1, Bool.false_eq_true, if_false]
    cases hec : ec att.DataSlot with
    | none => simp
    | some sc =>
      cases h2 : (getTrueBitIndices att.CommitteeBits).isEmpty with
      | true => simp [h2]
      | false =>
        simp only [h2, Bool.false_eq_true, if_false]
        rw [processCommittees_fst tracked sc att.AggregationBits att.DataSlot inc v,
          processCommittees_fst tracked sc att.AggregationBits att.DataSlot 0 v]
        simp

theorem processAttestation_snd (tracked : ValidatorIndex → Bool)
    (ec : EpochCommittees) (startSlot endSlot inc : Slot) (att : Attestation)
    (acc : ValidatorIndex → Bool) :
    (processAttestation tracked ec startSlot endSlot inc att acc).2
      = attEvents tracked ec startSlot endSlot inc att := by
  unfold attEvents processAttestation
  cases h1 : (att.DataSlot < startSlot || endSlot < att.DataSlot : Bool) with
  | true => simp [h1]
  | false =>
    simp only [h1, Bool.false_eq_true, if_false]
    cases hec : ec att.DataSlot with
    | none => simp
    | some sc =>
      cases h2 : (getTrueBitIndices att.CommitteeBits).isEmpty with
      | true => simp [h2]
      | false =>
        simp only [h2, Bool.false_eq_true, if_false]
        rw [processCommittees_snd, processCommittees_snd]

theorem scanAtts_fst (tracked : ValidatorIndex → Bool) (ec : EpochCommittees)
    (startSlot endSlot inc : Slot) (v : ValidatorIndex) :
    ∀ (atts : List Attestation) (acc : (ValidatorIndex → Bool) × List Event),
      (scanAtts tracked ec startSlot endSlot inc atts acc).1 v
        = (acc.1 v || atts.any (fun a => attestedBy tracked ec startSlot endSlot a v))
  | [], acc => by simp [scanAtts]
  | att :: rest, acc => by
    simp only [scanAtts]
    rw [scanAtts_fst tracked ec startSlot endSlot inc v rest]
    rw [processAttestation_fst]
    simp [Bool.or_assoc]

theorem scanAtts_snd (tracked : ValidatorIndex → Bool) (ec : EpochCommittees)
    (startSlot endSlot inc : Slot) :
    ∀ (atts : List Attestation) (acc : (ValidatorIndex → Bool) × List Event),
      (scanAtts tracked ec startSlot endSlot inc atts acc).2
        = acc.2 ++ atts.flatMap (fun a => attEvents tracked ec startSlot endSlot inc a)
  | [], acc => by simp [scanAtts]
  | att :: rest, acc => by
    simp only [scanAtts]
    rw [scanAtts_snd tracked ec startSlot endSlot inc rest]
    rw [processAttestation_snd]
    simp

theorem scanSlots_fst (tracked : ValidatorIndex → Bool) (ec : EpochCommittees)
    (startSlot endSlot : Slot) (v : ValidatorIndex) :
    ∀ (l : List (Slot × List Attestation)) (acc : (ValidatorIndex → Bool) × List Event),
      (scanSlots tracked ec startSlot endSlot l acc).1 v
        = (acc.1 v
            || (l.flatMap (fun p => p.2)).any
                (fun a => attestedBy tracked ec startSlot endSlot a v))
  | [], acc => by simp [scanSlots]
  | p :: rest, acc => by
    simp only [scanSlots]
    rw [scanSlots_fst tracked ec startSlot endSlot v rest]
    rw [scanAtts_fst]
    simp [Bool.or_assoc]

theorem scanSlots_snd (tracked : ValidatorIndex → Bool) (ec : EpochCommittees)
    (startSlot endSlot : Slot) :
    ∀ (l : List (Slot × List Attestation)) (acc : (ValidatorIndex → Bool) × List Event),
      (scanSlots tracked ec startSlot endSlot l acc).2
        = acc.2 ++ l.flatMap
            (fun p => p.2.flatMap (fun a => attEvents tracked ec startSlot endSlot p.1 a))
  | [], acc => by simp [scanSlots]
  | p :: rest, acc => by
    simp only [scanSlots]
    rw [scanSlots_snd tracked ec startSlot endSlot rest]
    rw [scanAtts_snd]
    simp

theorem scanSlotAttestations_fst (tracked : ValidatorIndex → Bool) (ec : EpochCommittees)
    (startSlot endSlot : Slot) (l : List (Slot × List Attestation)) (v : ValidatorIndex) :
    (scanSlotAttestations tracked ec startSlot endSlot l).1 v
      = (l.flatMap (fun p => p.2)).any (fun a => attestedBy tracked ec startSlot endSlot a v) := by
  unfold scanSlotAttestations
  rw [scanSlots_fst]
  simp

theorem resolveDuties_fst (attested : ValidatorIndex → Bool) (epoch : Epoch) :
    ∀ (duties : List ValidatorDuty) (chk : ValidatorIndex → Option Epoch)
      (v : ValidatorIndex),
      (resolveDuties attested epoch duties chk).1 v
        = if duties.any (fun d => d.ValidatorIndex == v) then some epoch else chk v
  | [], chk, v => by simp [resolveDuties]
  | d :: rest, chk, v => by
    simp only [resolveDuties, List.any_cons]
    rw [resolveDuties_fst attested epoch rest]
    by_cases h1 : rest.any (fun d => d.ValidatorIndex == v) = true
    · simp [h1]
    · simp only [Bool.not_eq_true] at h1
      by_cases h2 : v = d.ValidatorIndex
      · subst h2
        simp [h1, markCheckedThisEpoch]
      · have h2' : (d.ValidatorIndex == v) = false := by
          simp [Ne.symm h2]
        simp [h1, h2', markCheckedThisEpoch, h2]

theorem resolveDuties_snd (attested : ValidatorIndex → Bool) (epoch : Epoch) :
    ∀ (duties : List ValidatorDuty) (chk : ValidatorIndex → Option Epoch),
      (resolveDuties attested epoch duties chk).2
        = duties.map (fun d =>
            if attested d.ValidatorIndex then
              Event.AttestationConfirmed d.ValidatorIndex epoch d.Slot
            else Event.AttestationMissed d.ValidatorIndex epoch d.Slot)
  | [], chk => by simp [resolveDuties]
  | d :: rest, chk => by
    simp only [resolveDuties, List.map_cons]
    rw [resolveDuties_snd attested epoch rest]

theorem hitIn_eq_false (tracked : ValidatorIndex → Bool) (aggBits : List Nat)
    (v : ValidatorIndex) :
    ∀ (vs : List ValidatorIndex) (g : Nat), (∀ q : Nat, vs[q]? ≠ some v) →
      hitIn tracked aggBits v g vs = false
  | [], g, _ => by simp [hitIn]
  | w :: rest, g, h => by
    have hw : ¬ w = v := by
      intro hwv
      exact h 0 (by simp [hwv])
    simp only [hitIn]
    rw [hitIn_eq_false tracked aggBits v rest (g + 1) (fun q => by simpa using h (q + 1))]
    simp [beq_eq_decide, hw]

theorem attHit_eq_false (tracked : ValidatorIndex → Bool) (sc : SlotCommittees)
    (aggBits : List Nat) (v : ValidatorIndex) :
    ∀ (comms : List Nat) (g : Nat),
      (∀ (j c : Nat) (vs : List ValidatorIndex) (q : Nat),
        comms[j]? = some c → sc c = some vs → vs[q]? ≠ some v) →
      attHit tracked sc aggBits v comms g = false
  | [], g, _ => by simp [attHit]
  | c :: rest, g, h => by
    have hrest : attHit tracked sc aggBits v rest (g + ((sc c).getD []).length) = false :=
      attHit_eq_false tracked sc aggBits v rest _
        (fun j c' vs q hj hc' => h (j + 1) c' vs q (by simpa using hj) hc')
    have hhead : hitIn tracked aggBits v g ((sc c).getD []) = false := by
      cases hsc : sc c with
      | none => simp [hitIn]
      | some vs =>
        simp only [Option.getD_some]
        exact hitIn_eq_false tracked aggBits v vs g (fun q hq => h 0 c vs q (by simp) hsc hq)
    simp [attHit, hrest, hhead]

theorem hitIn_eq_of_unique (tracked : ValidatorIndex → Bool) (aggBits : List Nat)
    (v : ValidatorIndex) :
    ∀ (vs : List ValidatorIndex) (g p : Nat), vs[p]? = some v →
      (∀ q : Nat, vs[q]? = some v → q = p) →
      hitIn tracked aggBits v g vs = (isBitSet aggBits (g + p) && tracked v)
  | [], g, p, hp, _ => by simp at hp
  | w :: rest, g, p, hp, huq => by
    cases p with
    | zero =>
      have hw : w = v := by simpa using hp
      have hrest : hitIn tracked aggBits v (g + 1) rest = false := by
        apply hitIn_eq_false
        intro q hq
        have := huq (q + 1) (by simpa using hq)
        omega
      simp [hitIn, hrest, hw]
    | succ p' =>
      have hw : ¬ w = v := by
        intro hwv
        have := huq 0 (by simp [hwv])
        omega
      have hp' : rest[p']? = some v := by simpa using hp
      have huq' : ∀ q : Nat, rest[q]? = some v → q = p' := by
        intro q hq
        have := huq (q + 1) (by simpa using hq)
        omega
      simp only [hitIn]
      rw [hitIn_eq_of_unique tracked aggBits v rest (g + 1) p' hp' huq']
      have harith : g + 1 + p' = g + (p' + 1) := by omega
      simp [beq_eq_decide, hw, harith]

theorem attHit_eq_of_unique (tracked : ValidatorIndex → Bool) (sc : SlotCommittees)
    (aggBits : List Nat) (v : ValidatorIndex) :
    ∀ (comms : List Nat) (g k : Nat) (c : Nat) (vs : List ValidatorIndex) (p : Nat),
      comms[k]? = some c → sc c = some vs → vs[p]? = some v →
      (∀ (j c' : Nat) (vs' : List ValidatorIndex) (q : Nat),
        comms[j]? = some c' → sc c' = some vs' → vs'[q]? = some v →
        j = k ∧ q = p) →
      attHit tracked sc aggBits v comms g
        = (isBitSet aggBits (g + committeeOffset sc comms k + p) && tracked v)
  | [], g, k, c, vs, p, hk, _, _, _ => by simp at hk
  | c0 :: rest, g, k, c, vs, p, hk, hc, hp, huq => by
    cases k with
    | zero =>
      have hc0 : c0 = c := by simpa using hk
      subst hc0
      have hrest : attHit tracked sc aggBits v rest (g + ((sc c0).getD []).length) = false := by
        apply attHit_eq_false
        intro j c' vs' q hj hc' hq
        have := (huq (j + 1) c' vs' q (by simpa using hj) hc' hq).1
        omega
      have hhead : hitIn tracked aggBits v g ((sc c0).getD [])
          = (isBitSet aggBits (g + p) && tracked v) := by
        rw [hc, Option.getD_some]
        exact hitIn_eq_of_unique tracked aggBits v vs g p hp
          (fun q hq => (huq 0 c0 vs q (by simp) hc hq).2)
      simp [attHit, hhead, hrest, committeeOffset]
    | succ k' =>
      have hk' : rest[k']? = some c := by simpa using hk
      have hhead : hitIn tracked aggBits v g ((sc c0).getD []) = false := by
        cases hsc : sc c0 with
        | none => simp [hitIn]
        | some vs0 =>
          simp only [Option.getD_some]
          apply hitIn_eq_false
          intro q hq
          have := (huq 0 c0 vs0 q (by simp) hsc hq).1
          omega
      have huq' : ∀ (j c' : Nat) (vs' : List ValidatorIndex) (q : Nat),
          rest[j]? = some c' → sc c' = some vs' →
          vs'[q]? = some v → j = k' ∧ q = p := by
        intro j c' vs' q hj hc' hq
        have h := huq (j + 1) c' vs' q (by simpa using hj) hc' hq
        exact ⟨by omega, h.2⟩
      simp only [attHit, hhead, Bool.false_or]
      rw [attHit_eq_of_unique tracked sc aggBits v rest
        (g + ((sc c0).getD []).length) k' c vs p hk' hc hp huq']
      have hoff : committeeOffset sc (c0 :: rest) (k' + 1)
          = ((sc c0).getD []).length + committeeOffset sc rest k' := by
        simp [committeeOffset]
      rw [hoff]
      have harith : g + ((sc c0).getD []).length + committeeOffset sc rest k' + p
          = g + (((sc c0).getD []).length + committeeOffset sc rest k') + p := by omega
      rw [harith]

/-! ### C1 -/

/-- C1: inside the attestation scan, the committees aggregated in an
attestation are walked in ascending committee-index order (the decoded
index list is strictly sorted) with a running bit offset starting at 0,
and — when a validator `v` occupies exactly the one position `p` of the
committee at walk position `k` among the walked committees — `v` is
recorded as attested exactly when aggregation bit `S + p` is set and `v`
is tracked, where `S` is the total validator-list length of the preceding
walked committees. -/
theorem attestation_bit_offset_mapping
    (tracked : ValidatorIndex → Bool) (ec : EpochCommittees)
    (startSlot endSlot inc : Slot) (att : Attestation) (sc : SlotCommittees)
    (k : Nat) (c : Nat) (vs : List ValidatorIndex) (p : Nat) (v : ValidatorIndex)
    (hlo : startSlot ≤ att.DataSlot) (hhi : att.DataSlot ≤ endSlot)
    (hec : ec att.DataSlot = some sc)
    (hk : (getTrueBitIndices att.CommitteeBits)[k]? = some c)
    (hc : sc c = some vs) (hp : vs[p]? = some v)
    (huq : ∀ (j c' : Nat) (vs' : List ValidatorIndex) (q : Nat),
      (getTrueBitIndices att.CommitteeBits)[j]? = some c' →
      sc c' = some vs' → vs'[q]? = some v → j = k ∧ q = p) :
    List.Pairwise (· < ·) (getTrueBitIndices att.CommitteeBits) ∧
    (processAttestation tracked ec startSlot endSlot inc att (fun _ => false)).1 v
      = (isBitSet att.AggregationBits
          (committeeOffset sc (getTrueBitIndices att.CommitteeBits) k + p)
          && tracked v) := by
  constructor
  · exact List.Pairwise.sublist (List.filter_sublist _) (List.pairwise_lt_range _)
  · have hne : ¬ (getTrueBitIndices att.CommitteeBits).isEmpty = true := by
      cases hl : getTrueBitIndices att.CommitteeBits with
      | nil => rw [hl] at hk; simp at hk
      | cons a l => simp [hl]
    have hrange : (att.DataSlot < startSlot || endSlot < att.DataSlot : Bool) = false := by
      simp [Nat.not_lt.mpr hlo, Nat.not_lt.mpr hhi]
    unfold processAttestation
    rw [hrange]
    simp only [Bool.false_eq_true, if_false, hec]
    rw [if_neg hne]
    rw [processCommittees_fst]
    rw [attHit_eq_of_unique tracked sc att.AggregationBits v _ 0 k c vs p hk hc hp huq]
    simp

/-- Witness for C1 on the spec's sizes-`[3,5]` example: with
`CommitteeBits = 0b11` and `AggregationBits = 0b10001`, global bit 4 maps
to committee 1, local position 1 (validator 21, offset 3 + local 1), which
is recorded as attested. -/
theorem attestation_bit_offset_mapping_witness :
    (processAttestation (fun _ => true) ecExample 0 31 6 attExample (fun _ => false)).1 21
      = true := by
  have hlist : getTrueBitIndices attExample.CommitteeBits = [0, 1] := by decide
  have huq : ∀ (j c' : Nat) (vs' : List ValidatorIndex) (q : Nat),
      (getTrueBitIndices attExample.CommitteeBits)[j]? = some c' →
      scExample c' = some vs' → vs'[q]? = some 21 → j = 1 ∧ q = 1 := by
    rw [hlist]
    intro j c' vs' q hj hc' hq
    rcases j with _ | _ | j
    · have hcc : c' = 0 := by simpa using hj.symm
      subst hcc
      have h0 : scExample 0 = some [10, 11, 12] := rfl
      rw [h0] at hc'
      have hvs : vs' = [10, 11, 12] := (Option.some.inj hc').symm
      subst hvs
      have hq3 : q < 3 := by
        by_contra hge
        rw [List.getElem?_eq_none (by simpa using Nat.le_of_not_lt hge)] at hq
        simp at hq
      interval_cases q <;> simp_all
    · have hcc : c' = 1 := by simpa using hj.symm
      subst hcc
      have h1 : scExample 1 = some [20, 21, 22, 23, 24] := rfl
      rw [h1] at hc'
      have hvs : vs' = [20, 21, 22, 23, 24] := (Option.some.inj hc').symm
      subst hvs
      have hq5 : q < 5 := by
        by_contra hge
        rw [List.getElem?_eq_none (by simpa using Nat.le_of_not_lt hge)] at hq
        simp at hq
      interval_cases q <;> simp_all
    · simp at hj
  have h := (attestation_bit_offset_mapping (fun _ => true) ecExample 0 31 6 attExample
    scExample 1 1 [20, 21, 22, 23, 24] 1 21
    (by decide) (by decide) rfl (by decide) rfl rfl huq).2
  rw [h]
  decide

/-! ### C3 -/

/-- C3: a committee index decoded from `CommitteeBits` that is missing
from (or empty in) the slot's committee table produces exactly one
`DataInconsistency` event, is skipped, leaves the running bit offset
unchanged for the remaining committees, and marks no validator as
attested; processing continues with the next aggregated committee. -/
theorem missing_committee_skipped
    (tracked : ValidatorIndex → Bool) (sc : SlotCommittees) (aggBits : List Nat)
    (ds inc : Slot) (c : CommitteeIndex) (rest : List Nat) (bitBase : Nat)
    (attested : ValidatorIndex → Bool)
    (h : sc c = none ∨ sc c = some []) :
    processCommittees tracked sc aggBits ds inc (c :: rest) bitBase attested
      = ((processCommittees tracked sc aggBits ds inc rest bitBase attested).1,
         Event.DataInconsistency ds inc (some c)
           :: (processCommittees tracked sc aggBits ds inc rest bitBase attested).2) := by
  rcases h with h | h <;> simp [processCommittees, h]

/-- Witness for C3: committee 2 is absent from the fixture table, so the
walk `[2, 0]` warns once about committee 2 and continues with committee 0
at the unchanged offset. -/
theorem missing_committee_skipped_witness :
    processCommittees (fun _ => true) scExample [17] 5 6 [2, 0] 0 (fun _ => false)
      = ((processCommittees (fun _ => true) scExample [17] 5 6 [0] 0 (fun _ => false)).1,
         Event.DataInconsistency 5 6 (some 2)
           :: (processCommittees (fun _ => true) scExample [17] 5 6 [0] 0
                (fun _ => false)).2) :=
  missing_committee_skipped (fun _ => true) scExample [17] 5 6 2 [0] 0 (fun _ => false)
    (Or.inl rfl)

/-! ### C7 -/

/-- C7: for every bitfield `B` and index `i ≥ len(B)*8`, `isBitSet B i`
returns `false` (an out-of-range read is a defined no-op, not a fault —
the Lean embedding is a total function); for in-range `i` it returns bit
`i % 8` of byte `i / 8`. -/
theorem isBitSet_total_defined (B : List Nat) (i : Nat) :
    (B.length * 8 ≤ i → isBitSet B i = false) ∧
    (i < B.length * 8 → isBitSet B i = (B.getD (i / 8) 0).testBit (i % 8)) := by
  constructor
  · intro h
    have hb : B.length ≤ i / 8 := (Nat.le_div_iff_mul_le (by norm_num)).2 h
    simp [isBitSet, hb]
  · intro h
    have hb : i / 8 < B.length := Nat.div_lt_of_lt_mul (by omega)
    have hnb : ¬ B.length ≤ i / 8 := by omega
    simp only [isBitSet, if_neg hnb]
    rw [Nat.shiftLeft_eq, one_mul, Nat.and_two_pow]
    cases htb : (B.getD (i / 8) 0).testBit (i % 8) <;> simp [htb]

/-- Witness for C7 at `B = [5]`: index 100 is out of range and reads
`false`; index 2 is in range and reads bit 2 of byte 0. -/
theorem isBitSet_total_defined_witness :
    isBitSet [5] 100 = false ∧ isBitSet [5] 2 = Nat.testBit 5 2 := by
  constructor
  · exact (isBitSet_total_defined [5] 100).1 (by norm_num)
  · have h := (isBitSet_total_defined [5] 2).2 (by norm_num)
    simpa using h

/-! ### C4 -/

/-- C4 counterexample: validator 5 has never been checked, yet
`getValidatorsToCheck` at epoch 0 does not return it — the Go map's
zero-value read makes a never-checked validator indistinguishable from one
checked for epoch 0. -/
theorem filterUnchecked_epoch0_cex :
    (5 : ValidatorIndex) ∉ getValidatorsToCheck (fun _ => none) [5] 0 := by
  decide

/-- C4 amended: `getValidatorsToCheck` returns exactly the subset of the
given validators whose recorded checked-epoch — with the Go map zero value
0 standing in for never-checked validators — differs from the requested
epoch; consequently a never-checked validator is included for every epoch
except epoch 0 (for epoch 0 it is excluded). -/
theorem filterUnchecked_amended (chk : ValidatorIndex → Option Epoch)
    (V : List ValidatorIndex) (e : Epoch) :
    (∀ v : ValidatorIndex,
      v ∈ getValidatorsToCheck chk V e ↔ v ∈ V ∧ ¬ (chk v).getD 0 = e) ∧
    (∀ v ∈ V, chk v = none → e ≠ 0 → v ∈ getValidatorsToCheck chk V e) := by
  have hmem : ∀ v : ValidatorIndex,
      v ∈ getValidatorsToCheck chk V e ↔ v ∈ V ∧ ¬ (chk v).getD 0 = e := by
    intro v
    simp [getValidatorsToCheck, wasCheckedThisEpoch, List.mem_filter]
  refine ⟨hmem, ?_⟩
  intro v hv hnone hne
  rw [hmem v]
  refine ⟨hv, ?_⟩
  rw [hnone]
  simpa using fun h => hne h.symm

/-- Witness for the amended C4: the never-checked validator 5 is returned
for epoch 1. -/
theorem filterUnchecked_amended_witness :
    (5 : ValidatorIndex) ∈ getValidatorsToCheck (fun _ => none) [5] 1 :=
  (filterUnchecked_amended (fun _ => none) [5] 1).2 5 (by decide) rfl (by decide)

/-! ### C5 -/

/-- C5: duty resolution emits `AttestationConfirmed` for each duty whose
validator was recorded as attested and `AttestationMissed` otherwise (one
event per duty, in duty order), and in both cases marks the duty's
validator checked for the epoch; validators with no duty keep their
previous tracking entry. -/
theorem duty_resolution_verdicts (attested : ValidatorIndex → Bool) (epoch : Epoch)
    (duties : List ValidatorDuty) (chk : ValidatorIndex → Option Epoch) :
    (resolveDuties attested epoch duties chk).2
      = duties.map (fun d =>
          if attested d.ValidatorIndex then
            Event.AttestationConfirmed d.ValidatorIndex epoch d.Slot
          else Event.AttestationMissed d.ValidatorIndex epoch d.Slot) ∧
    (∀ d ∈ duties,
      (resolveDuties attested epoch duties chk).1 d.ValidatorIndex = some epoch) ∧
    (∀ v : ValidatorIndex, (∀ d ∈ duties, d.ValidatorIndex ≠ v) →
      (resolveDuties attested epoch duties chk).1 v = chk v) := by
  refine ⟨resolveDuties_snd attested epoch duties chk, ?_, ?_⟩
  · intro d hd
    rw [resolveDuties_fst]
    have h : duties.any (fun x => x.ValidatorIndex == d.ValidatorIndex) = true := by
      rw [List.any_eq_true]
      exact ⟨d, hd, by simp⟩
    rw [if_pos h]
  · intro v hv
    rw [resolveDuties_fst]
    have h : duties.any (fun x => x.ValidatorIndex == v) = false := by
      rw [List.any_eq_false]
      intro d hd
      simpa using hv d hd
    rw [h]
    simp

/-- Witness for C5 on the spec's epoch-100 scenario duty (validator 7,
duty slot 3210): confirmed verdict and tracker marking. -/
theorem duty_resolution_verdicts_witness :
    (resolveDuties (fun v => v == 7) 100
      [{ ValidatorIndex := 7, Slot := 3210, CommitteeIndex := 2,
         ValidatorCommitteeIdx := 5, CommitteeLength := 20, CommitteesAtSlot := 4 }]
      (fun _ => none)).1 7 = some 100 := by
  exact ((duty_resolution_verdicts (fun v => v == 7) 100
    [{ ValidatorIndex := 7, Slot := 3210, CommitteeIndex := 2,
       ValidatorCommitteeIdx := 5, CommitteeLength := 20, CommitteesAtSlot := 4 }]
    (fun _ => none)).2).1
    { ValidatorIndex := 7, Slot := 3210, CommitteeIndex := 2,
      ValidatorCommitteeIdx := 5, CommitteeLength := 20, CommitteesAtSlot := 4 }
    (by decide)

/-! ### C8 -/

theorem proposalLoop_eq (inp : TickInput) :
    ∀ duties : List ProposerDuty,
      proposalLoop inp duties = duties.map (fun d =>
        match inp.DidProposeBlock d.Slot with
        | .ok true => Event.ProposalConfirmed d.ValidatorIndex d.Slot
        | .ok false => Event.ProposalMissed d.ValidatorIndex d.Slot
        | .error _ => Event.TransientError (some d.Slot))
  | [] => by simp [proposalLoop]
  | d :: rest => by
    simp only [proposalLoop, List.map_cons]
    rw [proposalLoop_eq inp rest]
    cases h : inp.DidProposeBlock d.Slot with
    | ok b => cases b <;> simp [h]
    | error e => simp [h]

/-- C8: with a successful, non-empty proposer-duty fetch, the proposal
check emits exactly one event per duty in duty order — `ProposalConfirmed`
when the block-existence query answers true, `ProposalMissed` when it
answers false, and a transient-error event (the duty is skipped, counted
neither way) when the query fails — and the proposal step never touches
the duty tracker: when the attestation step is disabled by a failing duty
fetch, a full tick leaves `checkedEpochs` unchanged. -/
theorem proposer_three_outcomes (inp : TickInput) (fe : Epoch)
    (indices : List ValidatorIndex) (duties : List ProposerDuty)
    (hd : inp.GetProposerDuties fe indices = .ok duties) (hne : duties ≠ []) :
    checkProposals inp fe indices
      = duties.map (fun d =>
          match inp.DidProposeBlock d.Slot with
          | .ok true => Event.ProposalConfirmed d.ValidatorIndex d.Slot
          | .ok false => Event.ProposalMissed d.ValidatorIndex d.Slot
          | .error _ => Event.TransientError (some d.Slot)) ∧
    (∀ (s : DutiesChecker) (v : ValidatorIndex),
      inp.GetFinalizedEpoch = .ok fe → fe ≠ s.lastFinalizedEpoch →
      inp.GetValidatorDutiesBatch fe
        (getValidatorsToCheck s.checkedEpochs s.ValidatorIndices fe) = .error () →
      (checkLatestFinalizedEpoch s inp).1.checkedEpochs v = s.checkedEpochs v) := by
  constructor
  · simp only [checkProposals, hd]
    rw [if_neg (by simpa using hne)]
    exact proposalLoop_eq inp duties
  · intro s v hfe hne2 herr
    simp only [checkLatestFinalizedEpoch, hfe]
    rw [if_neg hne2]
    by_cases hempty : s.ValidatorIndices.isEmpty = true
    · rw [if_pos hempty]
    · rw [if_neg hempty]
      by_cases htc :
          (getValidatorsToCheck s.checkedEpochs s.ValidatorIndices fe).isEmpty = true
      · rw [if_pos htc]
      · rw [if_neg htc]
        simp only [checkAttestations, herr]

/-- Witness for C8: the three-duty fixture produces confirmed, missed and
transient-error outcomes, and a tick whose attester-duty fetch fails
leaves the tracking map unchanged. -/
theorem proposer_three_outcomes_witness :
    checkProposals proposerProbeInput 100 [30, 31, 32]
      = [Event.ProposalConfirmed 30 3205, Event.ProposalMissed 31 3206,
         Event.TransientError (some 3207)] ∧
    (checkLatestFinalizedEpoch (NewDutiesChecker [30]) proposerProbeInput).1.checkedEpochs 30
      = (NewDutiesChecker [30]).checkedEpochs 30 := by
  have h := proposer_three_outcomes proposerProbeInput 100 [30, 31, 32]
    [{ ValidatorIndex := 30, Slot := 3205 }, { ValidatorIndex := 31, Slot := 3206 },
     { ValidatorIndex := 32, Slot := 3207 }] rfl (by decide)
  constructor
  · rw [h.1]
    rfl
  · exact h.2 (NewDutiesChecker [30]) 30 rfl (by decide) rfl

/-! ### C9 -/

/-- C9: the attested set computed by the attestation scan — and hence
every confirmed/missed verdict resolved from it — does not depend on the
order in which the preloaded slots and their attestations are processed:
any two processing orders carrying the same attestations (as a multiset)
yield the same result, because recording a validator is an idempotent set
insertion. -/
theorem scan_order_independent (tracked : ValidatorIndex → Bool)
    (ec : EpochCommittees) (startSlot endSlot : Slot)
    (l1 l2 : List (Slot × List Attestation)) (epoch : Epoch)
    (duties : List ValidatorDuty) (chk : ValidatorIndex → Option Epoch)
    (hperm : (l1.flatMap (fun p => p.2)).Perm (l2.flatMap (fun p => p.2))) :
    (∀ v : ValidatorIndex,
      (scanSlotAttestations tracked ec startSlot endSlot l1).1 v
        = (scanSlotAttestations tracked ec startSlot endSlot l2).1 v) ∧
    resolveDuties (scanSlotAttestations tracked ec startSlot endSlot l1).1
        epoch duties chk
      = resolveDuties (scanSlotAttestations tracked ec startSlot endSlot l2).1
          epoch duties chk := by
  have hv : ∀ v : ValidatorIndex,
      (scanSlotAttestations tracked ec startSlot endSlot l1).1 v
        = (scanSlotAttestations tracked ec startSlot endSlot l2).1 v := by
    intro v
    rw [scanSlotAttestations_fst, scanSlotAttestations_fst]
    cases h1 : (l1.flatMap (fun p => p.2)).any
        (fun a => attestedBy tracked ec startSlot endSlot a v) with
    | true =>
      rw [List.any_eq_true] at h1
      obtain ⟨a, ha, hab⟩ := h1
      exact (List.any_eq_true.mpr ⟨a, hperm.mem_iff.mp ha, hab⟩).symm
    | false =>
      rw [List.any_eq_false] at h1
      refine (List.any_eq_false.mpr ?_).symm
      intro a ha
      exact h1 a (hperm.mem_iff.mpr ha)
  refine ⟨hv, ?_⟩
  have hfun : (scanSlotAttestations tracked ec startSlot endSlot l1).1
      = (scanSlotAttestations tracked ec startSlot endSlot l2).1 := funext hv
  rw [hfun]

/-- Witness for C9: swapping the processing order of the two preloaded
blocks leaves validator 21's attested bit unchanged. -/
theorem scan_order_independent_witness :
    (scanSlotAttestations (fun _ => true) ecExample 0 31
      [(6, [attExample]), (7, [attExample2])]).1 21
      = (scanSlotAttestations (fun _ => true) ecExample 0 31
          [(7, [attExample2]), (6, [attExample])]).1 21 :=
  (scan_order_independent (fun _ => true) ecExample 0 31
    [(6, [attExample]), (7, [attExample2])] [(7, [attExample2]), (6, [attExample])]
    0 [] (fun _ => none) (by decide)).1 21

/-! ### C6 -/

theorem checkAttestations_fst_cases (chk : ValidatorIndex → Option Epoch)
    (inp : TickInput) (fe : Epoch) (indices : List ValidatorIndex)
    (v : ValidatorIndex) :
    (checkAttestations chk inp fe indices).1 v = some fe ∨
    (checkAttestations chk inp fe indices).1 v = chk v := by
  cases hd : inp.GetValidatorDutiesBatch fe indices with
  | error e =>
    simp [checkAttestations, hd]
  | ok duties =>
    by_cases hne : duties = []
    · simp [checkAttestations, hd, hne]
    · cases hec : inp.GetEpochCommittees fe with
      | error e =>
        simp [checkAttestations, hd, hne, hec]
      | ok ec =>
        have hne2 : ¬ duties.isEmpty = true := by simpa using hne
        simp only [checkAttestations, hd, if_neg hne2, hec]
        rw [resolveDuties_fst]
        by_cases h : duties.any (fun d => d.ValidatorIndex == v) = true
        · rw [if_pos h]
          exact Or.inl rfl
        · rw [if_neg h]
          exact Or.inr rfl

/-- C6 counterexample: starting from a fresh engine, a tick reporting
finalized epoch 5 leaves validator 1 recorded as checked for epoch 5, and
a subsequent tick reporting the smaller epoch 3 overwrites that entry
with 3 — a reachable step decreases the stored checked-epoch. -/
theorem tracker_decrease_cex :
    ((checkLatestFinalizedEpoch (NewDutiesChecker [1]) (epochOnlyTick 5)).1.checkedEpochs 1
        = some 5) ∧
    ((checkLatestFinalizedEpoch
        (checkLatestFinalizedEpoch (NewDutiesChecker [1]) (epochOnlyTick 5)).1
        (epochOnlyTick 3)).1.checkedEpochs 1 = some 3) := by
  constructor <;> rfl

/-- C6 amended (what actually holds): a pass overwrites each resolved
validator's checked-epoch with the epoch being processed, so a tick
reporting a smaller finalized epoch can decrease a stored entry; under the
assumption that a successful finalized-epoch report is never below the
last observed epoch, one tick never decreases any stored checked-epoch,
and every stored entry stays bounded by the last observed finalized
epoch. -/
theorem tracker_monotone_step (s : DutiesChecker) (inp : TickInput)
    (hinv : ∀ v : ValidatorIndex, (s.checkedEpochs v).getD 0 ≤ s.lastFinalizedEpoch)
    (hmono : ∀ fe : Epoch, inp.GetFinalizedEpoch = .ok fe → s.lastFinalizedEpoch ≤ fe) :
    (∀ v : ValidatorIndex,
      (s.checkedEpochs v).getD 0
        ≤ ((checkLatestFinalizedEpoch s inp).1.checkedEpochs v).getD 0) ∧
    (∀ v : ValidatorIndex,
      ((checkLatestFinalizedEpoch s inp).1.checkedEpochs v).getD 0
        ≤ (checkLatestFinalizedEpoch s inp).1.lastFinalizedEpoch) := by
  cases hfe : inp.GetFinalizedEpoch with
  | error e =>
    simp only [checkLatestFinalizedEpoch, hfe]
    exact ⟨fun v => le_refl _, hinv⟩
  | ok fe =>
    have hle : s.lastFinalizedEpoch ≤ fe := hmono fe hfe
    by_cases heq : fe = s.lastFinalizedEpoch
    · simp only [checkLatestFinalizedEpoch, hfe, if_pos heq]
      exact ⟨fun v => le_refl _, hinv⟩
    · by_cases hempty : s.ValidatorIndices.isEmpty = true
      · simp only [checkLatestFinalizedEpoch, hfe, if_neg heq, if_pos hempty]
        exact ⟨fun v => le_refl _, fun v => le_trans (hinv v) hle⟩
      · by_cases htc :
            (getValidatorsToCheck s.checkedEpochs s.ValidatorIndices fe).isEmpty = true
        · simp only [checkLatestFinalizedEpoch, hfe, if_neg heq, if_neg hempty,
            if_pos htc]
          exact ⟨fun v => le_refl _, fun v => le_trans (hinv v) hle⟩
        · simp only [checkLatestFinalizedEpoch, hfe, if_neg heq, if_neg hempty,
            if_neg htc]
          constructor
          · intro v
            rcases checkAttestations_fst_cases s.checkedEpochs inp fe
              (getValidatorsToCheck s.checkedEpochs s.ValidatorIndices fe) v with h | h
            · rw [h]
              simpa using le_trans (hinv v) hle
            · rw [h]
          · intro v
            rcases checkAttestations_fst_cases s.checkedEpochs inp fe
              (getValidatorsToCheck s.checkedEpochs s.ValidatorIndices fe) v with h | h
            · rw [h]
              simp
            · rw [h]
              exact le_trans (hinv v) hle

/-- Witness for the amended C6: from a fresh engine, a tick reporting
epoch 5 does not decrease validator 1's stored checked-epoch. -/
theorem tracker_monotone_step_witness :
    ((NewDutiesChecker [1]).checkedEpochs 1).getD 0
      ≤ ((checkLatestFinalizedEpoch (NewDutiesChecker [1])
          (epochOnlyTick 5)).1.checkedEpochs 1).getD 0 :=
  (tracker_monotone_step (NewDutiesChecker [1]) (epochOnlyTick 5)
    (fun _ => Nat.le_refl 0) (fun fe _ => Nat.zero_le fe)).1 1

/-! ### C10 -/

theorem okEpochs_cons_ok (inp : TickInput) (rest : List TickInput) (e : Epoch)
    (hfe : inp.GetFinalizedEpoch = .ok e) :
    okEpochs (inp :: rest) = e :: okEpochs rest := by
  simp [okEpochs, List.filterMap_cons, hfe]

theorem runTicks_zeroReports (idx : List ValidatorIndex) :
    ∀ inputs : List TickInput, (∀ e ∈ okEpochs inputs, e = 0) →
      runTicks (NewDutiesChecker idx) inputs = NewDutiesChecker idx
  | [], _ => rfl
  | inp :: rest, h => by
    have hstep : (checkLatestFinalizedEpoch (NewDutiesChecker idx) inp).1
        = NewDutiesChecker idx := by
      cases hfe : inp.GetFinalizedEpoch with
      | error e => simp [checkLatestFinalizedEpoch, hfe]
      | ok e =>
        have he : e = 0 := by
          apply h e
          rw [okEpochs_cons_ok inp rest e hfe]
          simp
        subst he
        simp [checkLatestFinalizedEpoch, hfe, NewDutiesChecker]
    simp only [runTicks, hstep]
    apply runTicks_zeroReports idx rest
    intro e he
    apply h e
    cases hfe : inp.GetFinalizedEpoch with
    | error err => simpa [okEpochs, List.filterMap_cons, hfe] using he
    | ok e0 =>
      rw [okEpochs_cons_ok inp rest e0 hfe]
      simp [he]

/-- C10: a freshly constructed engine starts with last observed finalized
epoch 0; a tick whose reported epoch equals the last observed value is
skipped without any event; hence along any run whose successful
finalized-epoch reports are nondecreasing (as on a real chain), a tick
reporting finalized epoch 0 never triggers a verification pass — the
engine cannot distinguish a genuine finalized epoch 0 from its initial
state. -/
theorem epoch0_never_triggers :
    (∀ idx : List ValidatorIndex, (NewDutiesChecker idx).lastFinalizedEpoch = 0) ∧
    (∀ (s : DutiesChecker) (inp : TickInput) (fe : Epoch),
      inp.GetFinalizedEpoch = .ok fe → fe = s.lastFinalizedEpoch →
      checkLatestFinalizedEpoch s inp = (s, [])) ∧
    (∀ (idx : List ValidatorIndex) (pre : List TickInput) (inp : TickInput),
      List.Pairwise (· ≤ ·) (okEpochs (pre ++ [inp])) →
      inp.GetFinalizedEpoch = .ok 0 →
      checkLatestFinalizedEpoch (runTicks (NewDutiesChecker idx) pre) inp
        = (runTicks (NewDutiesChecker idx) pre, [])) := by
  refine ⟨fun idx => rfl, ?_, ?_⟩
  · intro s inp fe hfe heq
    simp [checkLatestFinalizedEpoch, hfe, heq]
  · intro idx pre inp hsort hz
    have hzeros : ∀ e ∈ okEpochs pre, e = 0 := by
      intro e he
      have happ : okEpochs (pre ++ [inp]) = okEpochs pre ++ okEpochs [inp] := by
        simp [okEpochs, List.filterMap_append]
      rw [happ] at hsort
      have hlast : okEpochs [inp] = [0] := by
        simp [okEpochs, List.filterMap_cons, hz]
      rw [hlast] at hsort
      have h2 : e ≤ 0 := (List.pairwise_append.mp hsort).2.2 e he 0 (by simp)
      exact Nat.le_zero.mp h2
    rw [runTicks_zeroReports idx pre hzeros]
    simp [checkLatestFinalizedEpoch, hz, NewDutiesChecker]

/-- Witness for C10: after an error tick and an epoch-0 tick, another
epoch-0 tick is still skipped. -/
theorem epoch0_never_triggers_witness :
    checkLatestFinalizedEpoch
        (runTicks (NewDutiesChecker [1]) [errorTick, epochOnlyTick 0]) (epochOnlyTick 0)
      = (runTicks (NewDutiesChecker [1]) [errorTick, epochOnlyTick 0], []) := by
  apply epoch0_never_triggers.2.2 [1] [errorTick, epochOnlyTick 0] (epochOnlyTick 0)
  · have h : okEpochs ([errorTick, epochOnlyTick 0] ++ [epochOnlyTick 0]) = [0, 0] := rfl
    rw [h]
    simp
  · rfl

/-! ### C2 -/

theorem flatMap_range'_single {α : Type} (l : List α) (s : Nat) :
    ∀ (n a : Nat), (List.range' a n).flatMap (fun t => if t = s then l else [])
      = if a ≤ s ∧ s < a + n then l else []
  | 0, a => by
    simp only [List.range'_zero, List.flatMap_nil]
    rw [if_neg (by omega)]
  | n + 1, a => by
    rw [List.range'_succ]
    simp only [List.flatMap_cons]
    rw [flatMap_range'_single l s n (a + 1)]
    by_cases has : a = s
    · subst has
      rw [if_pos rfl, if_neg (by omega), if_pos (by omega)]
      simp
    · rw [if_neg has]
      by_cases h2 : a + 1 ≤ s ∧ s < a + 1 + n
      · rw [if_pos h2, if_pos (by omega)]
        simp
      · rw [if_neg h2, if_neg (by omega)]
        simp

/-- C2 corrected/amended: the code enforces no per-duty inclusion
distance; an attestation with data slot `startSlot = e*32` is counted
toward the attested verdict exactly when the block containing it lies in
the per-epoch preload window `[startSlot+1, endSlot+32] = [32e+1, 32e+63]`
— in particular it is counted when included at `startSlot+1+32` and ALSO
when included at `startSlot+1+33`; only inclusion slots beyond `32e+63`
(or at/before `startSlot`) are excluded. Stated over the exact slot-range
expressions computed by `checkAttestations`. -/
theorem inclusion_window_amended (e s : Nat) (h : e * 32 + 63 < U64) :
    (scanSlotAttestations (fun v => v == 7) (windowEC e)
        (e * SlotsPerEpoch % U64) ((e * SlotsPerEpoch % U64 + SlotsPerEpoch - 1) % U64)
        (preloadSlotAttestations (windowProbeInput e s).GetBlockAttestations
          (e * SlotsPerEpoch % U64)
          ((e * SlotsPerEpoch % U64 + SlotsPerEpoch - 1) % U64))).1 7
      = decide (e * 32 + 1 ≤ s ∧ s ≤ e * 32 + 63) := by
  have hU : U64 = 18446744073709551616 := by norm_num [U64]
  have hlt : ∀ x : Nat, x ≤ e * 32 + 63 → x % U64 = x := by
    intro x hx
    apply Nat.mod_eq_of_lt
    rw [hU] at h ⊢
    omega
  have hm1 : e * SlotsPerEpoch % U64 = e * 32 := by
    show e * 32 % U64 = e * 32
    exact hlt (e * 32) (by omega)
  have hm2 : (e * 32 + SlotsPerEpoch - 1) % U64 = e * 32 + 31 := by
    have h1 : e * 32 + SlotsPerEpoch - 1 = e * 32 + 31 := by
      show e * 32 + 32 - 1 = e * 32 + 31
      omega
    rw [h1]
    exact hlt (e * 32 + 31) (by omega)
  rw [hm1, hm2]
  have hflat : (preloadSlotAttestations (windowProbeInput e s).GetBlockAttestations
        (e * 32) (e * 32 + 31)).flatMap (fun p => p.2)
      = if e * 32 + 1 ≤ s ∧ s ≤ e * 32 + 63 then [windowAtt e] else [] := by
    simp only [preloadSlotAttestations]
    have hlo : (e * 32 + 1) % U64 = e * 32 + 1 := hlt (e * 32 + 1) (by omega)
    have hhi : (e * 32 + 31 + 32) % U64 = e * 32 + 63 := by
      have h1 : e * 32 + 31 + 32 = e * 32 + 63 := by omega
      rw [h1]
      exact hlt (e * 32 + 63) (by omega)
    rw [hlo, hhi]
    have hlen : e * 32 + 63 + 1 - (e * 32 + 1) = 63 := by omega
    rw [hlen]
    have hstep : ∀ l : List Slot,
        (l.filterMap (fun slot =>
          match (windowProbeInput e s).GetBlockAttestations slot with
          | .ok atts => some (slot, atts)
          | .error _ => none)).flatMap (fun p => p.2)
        = l.flatMap (fun t => if t = s then [windowAtt e] else []) := by
      intro l
      induction l with
      | nil => rfl
      | cons t rest ih =>
        simp only [List.filterMap_cons,
          show (windowProbeInput e s).GetBlockAttestations t
            = Except.ok (if t = s then [windowAtt e] else []) from rfl]
        simp only [List.flatMap_cons, ih]
    rw [hstep]
    rw [flatMap_range'_single]
    exact if_congr ⟨fun hx => ⟨hx.1, by omega⟩, fun hx => ⟨hx.1, by omega⟩⟩ rfl rfl
  have hg : getTrueBitIndices [1] = [0] := by decide
  have hattested : attestedBy (fun v => v == 7) (windowEC e) (e * 32) (e * 32 + 31)
      (windowAtt e) 7 = true := by
    rw [show windowAtt e
      = { DataSlot := e * 32, CommitteeBits := [1], AggregationBits := [1] } from rfl]
    unfold attestedBy processAttestation
    dsimp only
    rw [show ((e * 32 : Slot) < e * 32 || (e * 32 + 31 : Slot) < e * 32 : Bool) = false from by
      rw [decide_eq_false (by omega), decide_eq_false (by omega)]
      rfl]
    simp only [Bool.false_eq_true, if_false]
    rw [show windowEC e (e * 32)
        = some (fun c => if c = 0 then some [7] else none) from by
      unfold windowEC
      rw [if_pos rfl]]
    simp [hg, processCommittees, markAttested, isBitSet]
  rw [scanSlotAttestations_fst, hflat]
  by_cases hin : e * 32 + 1 ≤ s ∧ s ≤ e * 32 + 63
  · rw [if_pos hin]
    simp only [List.any_cons, List.any_nil, Bool.or_false]
    rw [hattested]
    simp [hin]
  · rw [if_neg hin]
    simp [hin]

/-- Witness for the amended C2 at epoch 0, inclusion slot 33 (the window
boundary `startSlot+1+32`): the attestation is counted. -/
theorem inclusion_window_amended_witness :
    (scanSlotAttestations (fun v => v == 7) (windowEC 0)
        (0 * SlotsPerEpoch % U64) ((0 * SlotsPerEpoch % U64 + SlotsPerEpoch - 1) % U64)
        (preloadSlotAttestations (windowProbeInput 0 33).GetBlockAttestations
          (0 * SlotsPerEpoch % U64)
          ((0 * SlotsPerEpoch % U64 + SlotsPerEpoch - 1) % U64))).1 7
      = decide (0 * 32 + 1 ≤ 33 ∧ 33 ≤ 0 * 32 + 63) :=
  inclusion_window_amended 0 33 (by norm_num [U64])

/-- C2 counterexample: at epoch 0 (`startSlot = 0`), the attestation with
data slot 0 included in the block at slot 34 = `startSlot+1+33` IS counted
— the full attestation check confirms validator 7, contradicting the
claim that inclusion more than 32 slots after the data slot is excluded. -/
theorem inclusion_window_cex :
    (checkAttestations (fun _ => none) (windowProbeInput 0 34) 0 [7]).2
      = [Event.AttestationConfirmed 7 0 0] := by
  rfl

end DutiesIndexer
